import Mathlib

/-!
Shallow embedding of the Go package `ordered` (an insertion-ordered map with
a sorted key index and an iteration cursor), together with proofs of the
specification's testable properties.

Modelling conventions:
* Go panics are modelled by `Except String`, carrying the panic message.
* The Go built-in `map[K]V` is modelled as an association list observed only
  through `mapLookup`; `mapInsert` updates in place or appends, `mapErase`
  filters the key out, matching the observable behaviour of Go map operations.
* A nil Go function value (`less == nil`) is modelled by `Option`: the
  zero-value `Map` carries `none`, a constructed one carries `some less`.
* `slices.SortFunc(keys, less)` sorts `keys` by `less`; Go's sort is
  unspecified up to the relative order of `less`-equivalent elements, and is
  modelled here by insertion sort (`sortKeys`). Every claim proved below is
  either insensitive to the order of equivalent elements or assumes a
  comparator under which the sorted order is unique.
-/

namespace Ordered

/-- Panic message of `Map.check` for a map not built with `NewMap`. -/
def mustConstructMsg : String := "ordered: a Map must be constructed using NewMap"

/-- Panic message of `Map.check` for a write while an iterator is open. -/
def writeLockedMsg : String := "ordered: write to Map while MapIterator is not closed"

/-- Panic message of `MapIterator.Close` when the open count would go below zero. -/
def closeMsg : String := "ordered: call to MapIterator.Close while MapIterator is not open"

/-- Panic message of `MapIterator.check` for an iterator not built with `Map.Iter`. -/
def iterConstructMsg : String := "ordered: a MapIterator must be constructed using Map.Iter"

/-- The `op` annotation of the source: a read-only or read-write operation. -/
inductive Op where
  | ro
  | rw
deriving DecidableEq

/-- Lookup in the association-list model of the Go built-in `map[K]V`. -/
def mapLookup {K V : Type} [DecidableEq K] (l : List (K × V)) (k : K) : Option V :=
  (l.find? fun p => decide (p.1 = k)).map Prod.snd

/-- Insert or update in the association-list model of `map[K]V` (`m.m[k] = v`). -/
def mapInsert {K V : Type} [DecidableEq K] (l : List (K × V)) (k : K) (v : V) :
    List (K × V) :=
  match l with
  | [] => [(k, v)]
  | p :: ps => if p.1 = k then (k, v) :: ps else p :: mapInsert ps k v

/-- Key removal in the association-list model of `map[K]V` (`delete(m.m, k)`). -/
def mapErase {K V : Type} [DecidableEq K] (l : List (K × V)) (k : K) : List (K × V) :=
  l.filter fun p => decide (p.1 ≠ k)

/-- Embedding of the Go struct `Map[K, V]`: the open-iterator count `iter`,
the sorted key slice `keys`, the comparison function `less` (with `none`
modelling a nil Go function value, as in a zero-value `Map`), and the backing
hash map `m` as an association list. -/
structure Map (K V : Type) where
  iter : Int
  keys : List K
  less : Option (K → K → Bool)
  m : List (K × V)

/-- The Go zero value of `Map[K, V]`: nil comparison function, empty storage. -/
def zeroMap {K V : Type} : Map K V := ⟨0, [], none, []⟩

/-- Embedding of `NewMap`. Lean function values are total, so the source's
panic on a nil `less` cannot fire here; the nil-`less` state reachable in Go
only as a zero value is `zeroMap`. -/
def NewMap {K V : Type} (less : K → K → Bool) : Map K V :=
  ⟨0, [], some less, []⟩

/-- Embedding of `Map.check`: panic when the map was not constructed, and on
a read-write operation panic while the open-iterator count is nonzero. -/
def Map.check {K V : Type} (m : Map K V) (o : Op) : Except String Unit :=
  if m.less.isNone then .error mustConstructMsg
  else if o = .rw ∧ m.iter ≠ 0 then .error writeLockedMsg
  else .ok ()

/-- Embedding of `Map.Get`: the zero value of `V` (Lean `default`) when `k`
is absent, as for a Go map read miss. -/
def Map.Get {K V : Type} [DecidableEq K] [Inhabited V] (m : Map K V) (k : K) :
    Except String V := do
  m.check .ro
  return (mapLookup m.m k).getD default

/-- Embedding of `Map.TryGet`: the value together with the presence flag. -/
def Map.TryGet {K V : Type} [DecidableEq K] [Inhabited V] (m : Map K V) (k : K) :
    Except String (V × Bool) := do
  m.check .ro
  return ((mapLookup m.m k).getD default, (mapLookup m.m k).isSome)

/-- Embedding of `Map.Len`: the length of the key slice. -/
def Map.Len {K V : Type} (m : Map K V) : Except String Nat := do
  m.check .ro
  return m.keys.length

/-- Insertion into a sorted list, auxiliary to `sortKeys`. -/
def insertKey {K : Type} (less : K → K → Bool) (k : K) : List K → List K
  | [] => [k]
  | x :: xs => if less k x then k :: x :: xs else x :: insertKey less k xs

/-- Model of `slices.SortFunc(keys, less)` as insertion sort; see the header
note on order of `less`-equivalent elements. -/
def sortKeys {K : Type} (less : K → K → Bool) : List K → List K
  | [] => []
  | x :: xs => insertKey less x (sortKeys less xs)

/-- Embedding of `Map.Set`: on a new key, append it to `keys` and re-sort the
whole slice; on an existing key, leave `keys` untouched; always store the
value. -/
def Map.Set {K V : Type} [DecidableEq K] (m : Map K V) (k : K) (v : V) :
    Except String (Map K V) := do
  m.check .rw
  match m.less with
  | none => .error mustConstructMsg
  | some less =>
    let keys := if (mapLookup m.m k).isSome then m.keys
                else sortKeys less (m.keys ++ [k])
    return { m with keys := keys, m := mapInsert m.m k v }

/-- Embedding of `Map.Delete`: remove the first (only) occurrence of `k` from
`keys` if present (`slices.Index` plus `slices.Delete`), and delete it from
the backing map. -/
def Map.Delete {K V : Type} [DecidableEq K] (m : Map K V) (k : K) :
    Except String (Map K V) := do
  m.check .rw
  return { m with keys := m.keys.erase k, m := mapErase m.m k }

/-- Embedding of `Map.Reset`: clear `keys` and the backing map. -/
def Map.Reset {K V : Type} (m : Map K V) : Except String (Map K V) := do
  m.check .rw
  return { m with keys := [], m := [] }

/-- Embedding of `Map.Range`: the key/value pairs in `keys` order. Go's
`KeyValue[K, V]` is modelled as the pair `K × V`. -/
def Map.Range {K V : Type} [DecidableEq K] [Inhabited V] (m : Map K V) :
    Except String (List (K × V)) := do
  m.check .ro
  return m.keys.map fun k => (k, (mapLookup m.m k).getD default)

/-- Embedding of the Go struct `MapIterator[K, V]`: `hasMap` models the
non-nilness of the iterator and of its back pointer `mi.m` (false exactly for
a zero-value iterator), and `i` is the cursor position. -/
structure MapIterator (K V : Type) where
  hasMap : Bool
  i : Nat

/-- Embedding of `Map.Iter`: increment the open-iterator count and hand out a
cursor at position zero. -/
def Map.Iter {K V : Type} (m : Map K V) :
    Except String (Map K V × MapIterator K V) := do
  m.check .ro
  return ({ m with iter := m.iter + 1 }, ⟨true, 0⟩)

/-- Embedding of `MapIterator.check`: panic when the iterator or its map
pointer is nil. -/
def MapIterator.check {K V : Type} (mi : MapIterator K V) : Except String Unit :=
  if mi.hasMap then .ok () else .error iterConstructMsg

/-- Embedding of `MapIterator.Close`: decrement the shared count, panicking
if it goes below zero. The source's final `mi = nil` reassigns only the local
copy of the receiver pointer, so the caller's iterator value is unchanged;
accordingly `Close` returns only the updated map. -/
def MapIterator.Close {K V : Type} (mi : MapIterator K V) (m : Map K V) :
    Except String (Map K V) := do
  mi.check
  let n := m.iter - 1
  if n < 0 then .error closeMsg
  else return { m with iter := n }

/-- Embedding of `MapIterator.Next`: `none` models the nil `*KeyValue`
returned once the position reaches the end of `keys`. `Next` reads the map
and mutates only the cursor position, so it returns just the new cursor. -/
def MapIterator.Next {K V : Type} [DecidableEq K] [Inhabited V]
    (mi : MapIterator K V) (m : Map K V) :
    Except String (Option (K × V) × MapIterator K V) := do
  mi.check
  if h : mi.i < m.keys.length then
    return (some (m.keys[mi.i], (mapLookup m.m m.keys[mi.i]).getD default),
            { mi with i := mi.i + 1 })
  else
    return (none, mi)

/-- Loop body of `Map.All`: pairs are handed to `yield` in `keys` order until
`yield` returns false; the result collects every pair passed to `yield`. -/
def allLoop {K V : Type} [DecidableEq K] [Inhabited V] (mm : List (K × V))
    (yield : K → V → Bool) : List K → List (K × V)
  | [] => []
  | k :: ks =>
    let v := (mapLookup mm k).getD default
    if yield k v then (k, v) :: allLoop mm yield ks else [(k, v)]

/-- Embedding of `Map.All` (the go1.22 range-over-func iterator): it performs
no `check` call and never touches the open-iterator count; it simply walks
`keys`. The result is the list of pairs passed to `yield`. -/
def Map.All {K V : Type} [DecidableEq K] [Inhabited V] (m : Map K V)
    (yield : K → V → Bool) : List (K × V) :=
  allLoop m.m yield m.keys

/-- Mutating operations quantified over in the invariant claims. -/
inductive MOp (K V : Type) where
  | set (k : K) (v : V)
  | del (k : K)
  | reset

/-- Apply a sequence of mutating operations, propagating any panic. -/
def applyOps {K V : Type} [DecidableEq K] : List (MOp K V) → Map K V →
    Except String (Map K V)
  | [], m => .ok m
  | o :: os, m => do
    let m' ← match o with
      | .set k v => m.Set k v
      | .del k => m.Delete k
      | .reset => m.Reset
    applyOps os m'

/-- Run a cursor `n` steps in the loop shape of the source's documentation:
call `Next` repeatedly, stopping at the first `none`, collecting the yielded
pairs and returning the final cursor. -/
def iterateN {K V : Type} [DecidableEq K] [Inhabited V] (m : Map K V) :
    MapIterator K V → Nat → Except String (List (K × V) × MapIterator K V)
  | mi, 0 => .ok ([], mi)
  | mi, n + 1 => do
    let (kv, mi') ← mi.Next m
    match kv with
    | none => .ok ([], mi')
    | some p => do
      let (rest, mi'') ← iterateN m mi' n
      .ok (p :: rest, mi'')

/-- Lexicographic comparison of character lists by code point, auxiliary to
`strLess`. -/
def charListLess : List Char → List Char → Bool
  | [], [] => false
  | [], _ :: _ => true
  | _ :: _, [] => false
  | a :: as, b :: bs =>
    if a.toNat < b.toNat then true
    else if b.toNat < a.toNat then false
    else charListLess as bs

/-- Lexical comparison on strings, the comparator of the spec's concrete
scenario (`Less` of the source at `K = string`, i.e. Go's bytewise `a < b`,
which agrees with code-point order on these ASCII keys). -/
def strLess (a b : String) : Bool := charListLess a.toList b.toList

@[simp]
theorem error_bind {ε α β : Type} (e : ε) (g : α → Except ε β) :
    (Except.error e : Except ε α) >>= g = Except.error e := rfl

@[simp]
theorem ok_bind {ε α β : Type} (a : α) (g : α → Except ε β) :
    (Except.ok a : Except ε α) >>= g = g a := rfl

section AssocLemmas

variable {K V : Type} [DecidableEq K]

theorem mapLookup_nil (k : K) : mapLookup ([] : List (K × V)) k = none := rfl

theorem mapLookup_cons (p : K × V) (l : List (K × V)) (k : K) :
    mapLookup (p :: l) k = if p.1 = k then some p.2 else mapLookup l k := by
  by_cases h : p.1 = k <;> simp [mapLookup, List.find?, h]

theorem mapLookup_insert_self (l : List (K × V)) (k : K) (v : V) :
    mapLookup (mapInsert l k v) k = some v := by
  induction l with
  | nil => simp [mapInsert, mapLookup_cons]
  | cons p ps ih =>
    by_cases h : p.1 = k
    · simp [mapInsert, h, mapLookup_cons]
    · simp [mapInsert, h, mapLookup_cons, ih]

theorem mapLookup_insert_ne (l : List (K × V)) (k k' : K) (v : V) (h : k' ≠ k) :
    mapLookup (mapInsert l k v) k' = mapLookup l k' := by
  induction l with
  | nil => simp [mapInsert, mapLookup_cons, mapLookup_nil, h.symm]
  | cons p ps ih =>
    by_cases hp : p.1 = k
    · simp [mapInsert, hp, mapLookup_cons, h.symm]
    · simp [mapInsert, hp, mapLookup_cons, ih]

theorem mapErase_cons (p : K × V) (ps : List (K × V)) (k : K) :
    mapErase (p :: ps) k =
      if p.1 = k then mapErase ps k else p :: mapErase ps k := by
  by_cases hp : p.1 = k <;> simp [mapErase, hp]

theorem mapLookup_erase_self (l : List (K × V)) (k : K) :
    mapLookup (mapErase l k) k = none := by
  induction l with
  | nil => rfl
  | cons p ps ih =>
    rw [mapErase_cons]
    by_cases hp : p.1 = k
    · rw [if_pos hp]
      exact ih
    · rw [if_neg hp, mapLookup_cons, if_neg hp]
      exact ih

theorem mapLookup_erase_ne (l : List (K × V)) (k k' : K) (h : k' ≠ k) :
    mapLookup (mapErase l k) k' = mapLookup l k' := by
  induction l with
  | nil => rfl
  | cons p ps ih =>
    rw [mapErase_cons, mapLookup_cons]
    by_cases hp : p.1 = k
    · rw [if_pos hp]
      have hp' : ¬ p.1 = k' := by
        rw [hp]
        exact fun hh => h hh.symm
      rw [if_neg hp', ih]
    · rw [if_neg hp, mapLookup_cons, ih]

theorem mapErase_of_lookup_none (l : List (K × V)) (k : K)
    (h : mapLookup l k = none) : mapErase l k = l := by
  induction l with
  | nil => rfl
  | cons p ps ih =>
    rw [mapLookup_cons] at h
    by_cases hp : p.1 = k
    · simp [hp] at h
    · rw [if_neg hp] at h
      rw [mapErase_cons, if_neg hp, ih h]

end AssocLemmas

section SortLemmas

variable {K : Type} (f : K → K → Bool)

theorem insertKey_perm (k : K) (l : List K) :
    (insertKey f k l).Perm (k :: l) := by
  induction l with
  | nil => simp [insertKey]
  | cons x xs ih =>
    by_cases h : f k x
    · simp [insertKey, h]
    · simp only [insertKey, h, if_neg, Bool.false_eq_true, not_false_iff, if_false]
      exact (ih.cons x).trans (List.Perm.swap k x xs)

theorem sortKeys_perm (l : List K) : (sortKeys f l).Perm l := by
  induction l with
  | nil => simp [sortKeys]
  | cons x xs ih =>
    exact (insertKey_perm f x (sortKeys f xs)).trans (ih.cons x)

theorem mem_sortKeys (l : List K) (a : K) : a ∈ sortKeys f l ↔ a ∈ l :=
  (sortKeys_perm f l).mem_iff

theorem nodup_sortKeys (l : List K) (h : l.Nodup) : (sortKeys f l).Nodup :=
  ((sortKeys_perm f l).nodup_iff).mpr h

theorem mem_insertKey (k : K) (l : List K) (a : K) :
    a ∈ insertKey f k l ↔ a = k ∨ a ∈ l := by
  rw [(insertKey_perm f k l).mem_iff, List.mem_cons]

theorem insertKey_pairwise
    (htrans : ∀ a b c, f a b = true → f b c = true → f a c = true)
    (htot : ∀ a b, a ≠ b → f a b = true ∨ f b a = true)
    (k : K) (l : List K) (hk : k ∉ l)
    (hl : l.Pairwise fun a b => f a b = true) :
    (insertKey f k l).Pairwise fun a b => f a b = true := by
  induction l with
  | nil => simp [insertKey]
  | cons x xs ih =>
    have hkx : k ≠ x := fun h => hk (h ▸ List.mem_cons_self x xs)
    have hkxs : k ∉ xs := fun h => hk (List.mem_cons_of_mem x h)
    rcases List.pairwise_cons.mp hl with ⟨hx, hxs⟩
    by_cases h : f k x
    · rw [insertKey, if_pos h]
      refine List.pairwise_cons.mpr ⟨?_, hl⟩
      intro y hy
      rcases List.mem_cons.mp hy with rfl | hymem
      · exact h
      · exact htrans k x y h (hx y hymem)
    · rw [insertKey, if_neg h]
      have hxk : f x k = true := by
        rcases htot k x hkx with hkx' | hxk'
        · exact absurd hkx' h
        · exact hxk'
      refine List.pairwise_cons.mpr ⟨?_, ih hkxs hxs⟩
      intro y hy
      rcases (mem_insertKey f k xs y).mp hy with rfl | hymem
      · exact hxk
      · exact hx y hymem

theorem sortKeys_pairwise
    (htrans : ∀ a b c, f a b = true → f b c = true → f a c = true)
    (htot : ∀ a b, a ≠ b → f a b = true ∨ f b a = true)
    (l : List K) (h : l.Nodup) :
    (sortKeys f l).Pairwise fun a b => f a b = true := by
  induction l with
  | nil => simp [sortKeys]
  | cons x xs ih =>
    rcases List.nodup_cons.mp h with ⟨hx, hxs⟩
    have hx' : x ∉ sortKeys f xs := fun hmem => hx ((mem_sortKeys f xs x).mp hmem)
    exact insertKey_pairwise f htrans htot x (sortKeys f xs) hx' (ih hxs)

end SortLemmas

section OpLemmas

variable {K V : Type} [DecidableEq K]

theorem check_ok_ro (m : Map K V) (f : K → K → Bool) (hl : m.less = some f) :
    m.check .ro = .ok () := by
  simp [Map.check, hl]

theorem check_ok_rw (m : Map K V) (f : K → K → Bool) (hl : m.less = some f)
    (hi : m.iter = 0) : m.check .rw = .ok () := by
  simp [Map.check, hl, hi]

theorem check_err_unconstructed (m : Map K V) (o : Op) (hn : m.less = none) :
    m.check o = .error mustConstructMsg := by
  simp [Map.check, hn]

theorem check_err_locked (m : Map K V) (f : K → K → Bool) (hl : m.less = some f)
    (hi : m.iter ≠ 0) : m.check .rw = .error writeLockedMsg := by
  simp [Map.check, hl, hi]

theorem Get_eq [Inhabited V] (m : Map K V) (f : K → K → Bool) (k : K)
    (hl : m.less = some f) :
    m.Get k = .ok ((mapLookup m.m k).getD default) := by
  simp [Map.Get, check_ok_ro m f hl]

theorem TryGet_eq [Inhabited V] (m : Map K V) (f : K → K → Bool) (k : K)
    (hl : m.less = some f) :
    m.TryGet k = .ok ((mapLookup m.m k).getD default, (mapLookup m.m k).isSome) := by
  simp [Map.TryGet, check_ok_ro m f hl]

theorem Len_eq (m : Map K V) (f : K → K → Bool) (hl : m.less = some f) :
    m.Len = .ok m.keys.length := by
  simp [Map.Len, check_ok_ro m f hl]

theorem Range_eq [Inhabited V] (m : Map K V) (f : K → K → Bool)
    (hl : m.less = some f) :
    m.Range = .ok (m.keys.map fun k => (k, (mapLookup m.m k).getD default)) := by
  simp [Map.Range, check_ok_ro m f hl]

theorem Set_eq (m : Map K V) (f : K → K → Bool) (k : K) (v : V)
    (hl : m.less = some f) (hi : m.iter = 0) :
    m.Set k v = .ok { m with
      keys := if (mapLookup m.m k).isSome then m.keys
              else sortKeys f (m.keys ++ [k]),
      m := mapInsert m.m k v } := by
  simp [Map.Set, check_ok_rw m f hl hi, hl]

theorem Delete_eq (m : Map K V) (f : K → K → Bool) (k : K)
    (hl : m.less = some f) (hi : m.iter = 0) :
    m.Delete k = .ok { m with keys := m.keys.erase k, m := mapErase m.m k } := by
  simp [Map.Delete, check_ok_rw m f hl hi]

theorem Reset_eq (m : Map K V) (f : K → K → Bool)
    (hl : m.less = some f) (hi : m.iter = 0) :
    m.Reset = .ok { m with keys := [], m := [] } := by
  simp [Map.Reset, check_ok_rw m f hl hi]

theorem Iter_eq (m : Map K V) (f : K → K → Bool) (hl : m.less = some f) :
    m.Iter = .ok ({ m with iter := m.iter + 1 }, (⟨true, 0⟩ : MapIterator K V)) := by
  simp [Map.Iter, check_ok_ro m f hl]

theorem Set_locked (m : Map K V) (f : K → K → Bool) (k : K) (v : V)
    (hl : m.less = some f) (hi : m.iter ≠ 0) :
    m.Set k v = .error writeLockedMsg := by
  simp [Map.Set, check_err_locked m f hl hi]

theorem Delete_locked (m : Map K V) (f : K → K → Bool) (k : K)
    (hl : m.less = some f) (hi : m.iter ≠ 0) :
    m.Delete k = .error writeLockedMsg := by
  simp [Map.Delete, check_err_locked m f hl hi]

theorem Reset_locked (m : Map K V) (f : K → K → Bool)
    (hl : m.less = some f) (hi : m.iter ≠ 0) :
    m.Reset = .error writeLockedMsg := by
  simp [Map.Reset, check_err_locked m f hl hi]

theorem Close_eq_ok (mi : MapIterator K V) (m : Map K V)
    (hm : mi.hasMap = true) (hi : 1 ≤ m.iter) :
    mi.Close m = .ok { m with iter := m.iter - 1 } := by
  have h1 : ¬ m.iter - 1 < 0 := by omega
  simp [MapIterator.Close, MapIterator.check, hm, h1]

theorem Close_eq_err (mi : MapIterator K V) (m : Map K V)
    (hm : mi.hasMap = true) (hi : m.iter ≤ 0) :
    mi.Close m = .error closeMsg := by
  have h1 : m.iter - 1 < 0 := by omega
  simp [MapIterator.Close, MapIterator.check, hm, h1]

theorem Next_eq_yield [Inhabited V] (mi : MapIterator K V) (m : Map K V)
    (hm : mi.hasMap = true) (h : mi.i < m.keys.length) :
    mi.Next m = .ok (some (m.keys[mi.i],
      (mapLookup m.m m.keys[mi.i]).getD default), { mi with i := mi.i + 1 }) := by
  simp [MapIterator.Next, MapIterator.check, hm, h]

theorem Next_eq_done [Inhabited V] (mi : MapIterator K V) (m : Map K V)
    (hm : mi.hasMap = true) (h : ¬ mi.i < m.keys.length) :
    mi.Next m = .ok (none, mi) := by
  simp [MapIterator.Next, MapIterator.check, hm, h]

end OpLemmas

section Invariant

variable {K V : Type} [DecidableEq K]

/-- The representation invariant of a constructed, write-unlocked map: the
comparison function is the one supplied at construction, no iterator is
open, the key slice is duplicate-free, and `keys` holds exactly the keys
present in the backing map. -/
structure Inv (f : K → K → Bool) (m : Map K V) : Prop where
  hless : m.less = some f
  hiter : m.iter = 0
  hnodup : m.keys.Nodup
  hmem : ∀ k, k ∈ m.keys ↔ (mapLookup m.m k).isSome = true

/-- The key slice is sorted: every earlier key compares strictly before every
later one. -/
def SortedKeys (f : K → K → Bool) (m : Map K V) : Prop :=
  m.keys.Pairwise fun a b => f a b = true

theorem NewMap_inv (f : K → K → Bool) : Inv f (NewMap (V := V) f) := by
  refine ⟨rfl, rfl, List.nodup_nil, ?_⟩
  intro k
  simp [NewMap, mapLookup_nil]

theorem NewMap_sorted (f : K → K → Bool) : SortedKeys f (NewMap (V := V) f) :=
  List.Pairwise.nil

theorem Set_inv (f : K → K → Bool) (m : Map K V) (k : K) (v : V) (h : Inv f m) :
    Inv f { m with
      keys := if (mapLookup m.m k).isSome then m.keys
              else sortKeys f (m.keys ++ [k]),
      m := mapInsert m.m k v } := by
  refine ⟨h.hless, h.hiter, ?_, ?_⟩
  · by_cases hk : (mapLookup m.m k).isSome
    · simpa [hk] using h.hnodup
    · have hknot : k ∉ m.keys := fun hmem => hk ((h.hmem k).mp hmem)
      have : (m.keys ++ [k]).Nodup := by
        rw [List.nodup_append]
        exact ⟨h.hnodup, List.nodup_singleton k, by simpa using hknot⟩
      simpa [hk] using nodup_sortKeys f _ this
  · intro k'
    show (k' ∈ if (mapLookup m.m k).isSome then m.keys
               else sortKeys f (m.keys ++ [k]))
        ↔ (mapLookup (mapInsert m.m k v) k').isSome = true
    by_cases hk : (mapLookup m.m k).isSome
    · rw [if_pos hk]
      by_cases hk' : k' = k
      · subst hk'
        rw [mapLookup_insert_self]
        simpa using (h.hmem k').mpr hk
      · rw [mapLookup_insert_ne m.m k k' v hk']
        exact h.hmem k'
    · rw [if_neg hk, mem_sortKeys]
      by_cases hk' : k' = k
      · subst hk'
        rw [mapLookup_insert_self]
        simp
      · rw [mapLookup_insert_ne m.m k k' v hk']
        simp only [List.mem_append, List.mem_singleton]
        constructor
        · intro hc
          rcases hc with hc | hc
          · exact (h.hmem k').mp hc
          · exact absurd hc hk'
        · intro hc
          exact Or.inl ((h.hmem k').mpr hc)

theorem Delete_inv (f : K → K → Bool) (m : Map K V) (k : K) (h : Inv f m) :
    Inv f { m with keys := m.keys.erase k, m := mapErase m.m k } := by
  refine ⟨h.hless, h.hiter, h.hnodup.erase k, ?_⟩
  intro k'
  by_cases hk' : k' = k
  · subst hk'
    simp [h.hnodup.mem_erase_iff, mapLookup_erase_self]
  · simp [h.hnodup.mem_erase_iff, hk', mapLookup_erase_ne m.m k k' hk', h.hmem k']

theorem Reset_inv (f : K → K → Bool) (m : Map K V) (h : Inv f m) :
    Inv f { m with keys := ([] : List K), m := ([] : List (K × V)) } := by
  refine ⟨h.hless, h.hiter, List.nodup_nil, ?_⟩
  intro k
  simp [mapLookup_nil]

theorem applyOps_inv (f : K → K → Bool) (ops : List (MOp K V)) (m : Map K V)
    (h : Inv f m) : ∃ m', applyOps ops m = .ok m' ∧ Inv f m' := by
  induction ops generalizing m with
  | nil => exact ⟨m, rfl, h⟩
  | cons o os ih =>
    cases o with
    | set k v =>
      rcases ih _ (Set_inv f m k v h) with ⟨m', hm', hinv⟩
      exact ⟨m', by rw [applyOps, Set_eq m f k v h.hless h.hiter]; exact hm', hinv⟩
    | del k =>
      rcases ih _ (Delete_inv f m k h) with ⟨m', hm', hinv⟩
      exact ⟨m', by rw [applyOps, Delete_eq m f k h.hless h.hiter]; exact hm', hinv⟩
    | reset =>
      rcases ih _ (Reset_inv f m h) with ⟨m', hm', hinv⟩
      exact ⟨m', by rw [applyOps, Reset_eq m f h.hless h.hiter]; exact hm', hinv⟩

theorem Set_sorted (f : K → K → Bool)
    (htrans : ∀ a b c, f a b = true → f b c = true → f a c = true)
    (htot : ∀ a b, a ≠ b → f a b = true ∨ f b a = true)
    (m : Map K V) (k : K) (v : V) (h : Inv f m) (hs : SortedKeys f m) :
    SortedKeys f { m with
      keys := if (mapLookup m.m k).isSome then m.keys
              else sortKeys f (m.keys ++ [k]),
      m := mapInsert m.m k v } := by
  unfold SortedKeys at hs ⊢
  by_cases hk : (mapLookup m.m k).isSome
  · simpa [hk] using hs
  · have hknot : k ∉ m.keys := fun hmem => hk ((h.hmem k).mp hmem)
    have hnd : (m.keys ++ [k]).Nodup := by
      rw [List.nodup_append]
      exact ⟨h.hnodup, List.nodup_singleton k, by simpa using hknot⟩
    simpa [hk] using sortKeys_pairwise f htrans htot _ hnd

theorem Delete_sorted (f : K → K → Bool) (m : Map K V) (k : K)
    (hs : SortedKeys f m) :
    SortedKeys f { m with keys := m.keys.erase k, m := mapErase m.m k } := by
  unfold SortedKeys at hs ⊢
  exact hs.sublist (m.keys.erase_sublist k)

theorem applyOps_inv_sorted (f : K → K → Bool)
    (htrans : ∀ a b c, f a b = true → f b c = true → f a c = true)
    (htot : ∀ a b, a ≠ b → f a b = true ∨ f b a = true)
    (ops : List (MOp K V)) (m : Map K V)
    (h : Inv f m) (hs : SortedKeys f m) :
    ∃ m', applyOps ops m = .ok m' ∧ Inv f m' ∧ SortedKeys f m' := by
  induction ops generalizing m with
  | nil => exact ⟨m, rfl, h, hs⟩
  | cons o os ih =>
    cases o with
    | set k v =>
      rcases ih _ (Set_inv f m k v h) (Set_sorted f htrans htot m k v h hs) with
        ⟨m', hm', hrest⟩
      exact ⟨m', by rw [applyOps, Set_eq m f k v h.hless h.hiter]; exact hm', hrest⟩
    | del k =>
      rcases ih _ (Delete_inv f m k h) (Delete_sorted f m k hs) with ⟨m', hm', hrest⟩
      exact ⟨m', by rw [applyOps, Delete_eq m f k h.hless h.hiter]; exact hm', hrest⟩
    | reset =>
      rcases ih _ (Reset_inv f m h) List.Pairwise.nil with ⟨m', hm', hrest⟩
      exact ⟨m', by rw [applyOps, Reset_eq m f h.hless h.hiter]; exact hm', hrest⟩

end Invariant

/-- C5: on a map constructed with lexical string ordering, the spec's
concrete scenario holds: after `Set("foo",1)`, `Set("bar",2)`, `Set("baz",3)`
the `Range()` is exactly `[("bar",2),("baz",3),("foo",1)]`; after the update
`Set("foo",10)` and `Delete("bar")` it is exactly `[("baz",3),("foo",10)]`;
after `Reset()`, `Len()` is `0` and `TryGet("foo")` reports found=false. -/
theorem c5_concrete_scenario :
    (do
      let m1 ← (NewMap strLess (V := Nat)).Set "foo" 1
      let m2 ← m1.Set "bar" 2
      let m3 ← m2.Set "baz" 3
      let r1 ← m3.Range
      let m4 ← m3.Set "foo" 10
      let m5 ← m4.Delete "bar"
      let r2 ← m5.Range
      let m6 ← m5.Reset
      let n ← m6.Len
      let t ← m6.TryGet "foo"
      pure (r1, r2, n, t) :
      Except String
        (List (String × Nat) × List (String × Nat) × Nat × (Nat × Bool)))
    = .ok ([("bar", 2), ("baz", 3), ("foo", 1)],
           [("baz", 3), ("foo", 10)], 0, (0, false)) := by rfl

/-- C3, evaluated at the failing input: with two cursors open on the same
one-key map, closing the first cursor twice does not fail — the second
`Close` succeeds (it merely drives the shared count from 1 to 0, silently
releasing the other cursor's write lock) — and `Next` on the twice-closed
cursor still succeeds and yields a pair. The source's `mi = nil` at the end
of `Close` reassigns only the method-local copy of the receiver pointer, so
a released cursor remains fully usable; only a `Close` that would drive the
shared count negative panics. -/
theorem c3_close_twice_not_fatal :
    (do
      let m1 ← (NewMap strLess (V := Nat)).Set "a" 1
      let (m2, mi0) ← m1.Iter
      let (m3, _mi1) ← m2.Iter
      let m4 ← mi0.Close m3
      let m5 ← mi0.Close m4
      let (kv, _) ← mi0.Next m5
      pure (m5.iter, kv) : Except String (Int × Option (String × Nat)))
    = .ok (0, some ("a", 1)) := by rfl

/-- C4 counterexample: `All` invoked on the zero-value (never-constructed,
nil-comparator) map does not fail fatally — it performs no `check` call and
returns normally, yielding no pairs — refuting the claim that every public
operation including `All` panics on such a map. -/
theorem c4_counterexample :
    Map.All (zeroMap : Map String Nat) (fun _ _ => true) = [] := by rfl

/-- C4 as amended: on a map whose comparator is nil, every public operation
other than `All` — `Get`, `TryGet`, `Len`, `Set`, `Delete`, `Reset`,
`Range`, and `Iter` — fails fatally with the construction panic; `All` alone
skips the check (see the counterexample). -/
theorem c4_unconstructed_ops_panic {K V : Type} [DecidableEq K] [Inhabited V]
    (m : Map K V) (k : K) (v : V) (hn : m.less = none) :
    m.Get k = .error mustConstructMsg ∧
    m.TryGet k = .error mustConstructMsg ∧
    m.Len = .error mustConstructMsg ∧
    m.Set k v = .error mustConstructMsg ∧
    m.Delete k = .error mustConstructMsg ∧
    m.Reset = .error mustConstructMsg ∧
    m.Range = .error mustConstructMsg ∧
    m.Iter = .error mustConstructMsg := by
  have hc : ∀ o, m.check o = .error mustConstructMsg := fun o =>
    check_err_unconstructed m o hn
  exact ⟨by simp [Map.Get, hc], by simp [Map.TryGet, hc], by simp [Map.Len, hc],
    by simp [Map.Set, hc], by simp [Map.Delete, hc], by simp [Map.Reset, hc],
    by simp [Map.Range, hc], by simp [Map.Iter, hc]⟩

/-- Witness for the amended C4 at the zero-value map over strings. -/
theorem c4_unconstructed_witness :
    (zeroMap : Map String Nat).Get "x" = .error mustConstructMsg ∧
    (zeroMap : Map String Nat).TryGet "x" = .error mustConstructMsg ∧
    (zeroMap : Map String Nat).Len = .error mustConstructMsg ∧
    (zeroMap : Map String Nat).Set "x" 0 = .error mustConstructMsg ∧
    (zeroMap : Map String Nat).Delete "x" = .error mustConstructMsg ∧
    (zeroMap : Map String Nat).Reset = .error mustConstructMsg ∧
    (zeroMap : Map String Nat).Range = .error mustConstructMsg ∧
    (zeroMap : Map String Nat).Iter = .error mustConstructMsg :=
  c4_unconstructed_ops_panic (zeroMap : Map String Nat) "x" 0 rfl

/-- C2: on a constructed map, while the open-cursor count is nonzero each of
`Set`, `Delete`, and `Reset` fails fatally with the write-lock panic (the
check precedes any mutation, and an error carries no modified map); when the
count is zero the same calls succeed; `Iter` increments the count by one and
`Close` on a live cursor decrements it by one, so once every cursor opened
by `Iter` has been closed the count is back to zero and writes succeed. -/
theorem c2_iteration_isolation {K V : Type} [DecidableEq K]
    (f : K → K → Bool) (m : Map K V) (k : K) (v : V)
    (hl : m.less = some f) :
    (m.iter ≠ 0 →
      m.Set k v = .error writeLockedMsg ∧
      m.Delete k = .error writeLockedMsg ∧
      m.Reset = .error writeLockedMsg) ∧
    (m.iter = 0 →
      (∃ m', m.Set k v = .ok m') ∧
      (∃ m', m.Delete k = .ok m') ∧
      (∃ m', m.Reset = .ok m')) ∧
    m.Iter = .ok ({ m with iter := m.iter + 1 }, (⟨true, 0⟩ : MapIterator K V)) ∧
    (∀ mi : MapIterator K V, mi.hasMap = true → 1 ≤ m.iter →
      mi.Close m = .ok { m with iter := m.iter - 1 }) := by
  refine ⟨fun hi => ⟨Set_locked m f k v hl hi, Delete_locked m f k hl hi,
      Reset_locked m f hl hi⟩,
    fun hi => ⟨⟨_, Set_eq m f k v hl hi⟩, ⟨_, Delete_eq m f k hl hi⟩,
      ⟨_, Reset_eq m f hl hi⟩⟩,
    Iter_eq m f hl,
    fun mi hm hi => Close_eq_ok mi m hm hi⟩

/-- Witness for C2 at a concrete map holding one open cursor. -/
theorem c2_witness :
    ((⟨1, [], some strLess, []⟩ : Map String Nat).iter ≠ 0 →
      (⟨1, [], some strLess, []⟩ : Map String Nat).Set "x" 0 = .error writeLockedMsg ∧
      (⟨1, [], some strLess, []⟩ : Map String Nat).Delete "x" = .error writeLockedMsg ∧
      (⟨1, [], some strLess, []⟩ : Map String Nat).Reset = .error writeLockedMsg) ∧
    ((⟨1, [], some strLess, []⟩ : Map String Nat).iter = 0 →
      (∃ m', (⟨1, [], some strLess, []⟩ : Map String Nat).Set "x" 0 = .ok m') ∧
      (∃ m', (⟨1, [], some strLess, []⟩ : Map String Nat).Delete "x" = .ok m') ∧
      (∃ m', (⟨1, [], some strLess, []⟩ : Map String Nat).Reset = .ok m')) ∧
    (⟨1, [], some strLess, []⟩ : Map String Nat).Iter =
      .ok ({ (⟨1, [], some strLess, []⟩ : Map String Nat) with iter := (1 : Int) + 1 },
        (⟨true, 0⟩ : MapIterator String Nat)) ∧
    (∀ mi : MapIterator String Nat, mi.hasMap = true →
      (1 : Int) ≤ (⟨1, [], some strLess, []⟩ : Map String Nat).iter →
      mi.Close (⟨1, [], some strLess, []⟩ : Map String Nat) =
        .ok { (⟨1, [], some strLess, []⟩ : Map String Nat) with iter := (1 : Int) - 1 }) :=
  c2_iteration_isolation strLess (⟨1, [], some strLess, []⟩ : Map String Nat) "x" 0 rfl

/-- C6: on a constructed, write-unlocked map in which key `k` is already
present, `Set(k,v1)` followed by `Set(k,v2)` leaves the key slice — and
hence the key order of `Range()` — exactly as before, and `Get(k)` then
returns `v2`. -/
theorem c6_overwrite_semantics {K V : Type} [DecidableEq K] [Inhabited V]
    (f : K → K → Bool) (m : Map K V) (k : K) (v1 v2 w : V)
    (hl : m.less = some f) (hi : m.iter = 0) (hp : mapLookup m.m k = some w) :
    ∃ m1 m2, m.Set k v1 = .ok m1 ∧ m1.Set k v2 = .ok m2 ∧
      m2.keys = m.keys ∧ m2.Get k = .ok v2 ∧
      ∃ r r', m.Range = .ok r ∧ m2.Range = .ok r' ∧
        r'.map Prod.fst = r.map Prod.fst := by
  have hsome : (mapLookup m.m k).isSome = true := by rw [hp]; rfl
  have h1 : m.Set k v1 = .ok { m with keys := m.keys, m := mapInsert m.m k v1 } := by
    rw [Set_eq m f k v1 hl hi, if_pos hsome]
  set m1 : Map K V := { m with keys := m.keys, m := mapInsert m.m k v1 } with hm1
  have hl1 : m1.less = some f := hl
  have hi1 : m1.iter = 0 := hi
  have hp1 : mapLookup m1.m k = some v1 := mapLookup_insert_self m.m k v1
  have hsome1 : (mapLookup m1.m k).isSome = true := by rw [hp1]; rfl
  have h2 : m1.Set k v2 = .ok { m1 with keys := m1.keys, m := mapInsert m1.m k v2 } := by
    rw [Set_eq m1 f k v2 hl1 hi1, if_pos hsome1]
  set m2 : Map K V := { m1 with keys := m1.keys, m := mapInsert m1.m k v2 } with hm2
  have hkeys : m2.keys = m.keys := rfl
  have hget : m2.Get k = .ok v2 := by
    rw [Get_eq m2 f k hl1, mapLookup_insert_self]
    rfl
  refine ⟨m1, m2, h1, h2, hkeys, hget, ?_⟩
  refine ⟨_, _, Range_eq m f hl, Range_eq m2 f hl1, ?_⟩
  have hmapfst : ∀ (mm : List (K × V)) (ks : List K),
      (ks.map fun k' => (k', (mapLookup mm k').getD default)).map Prod.fst = ks := by
    intro mm ks
    induction ks with
    | nil => rfl
    | cons x xs ih => simpa using ih
  rw [hmapfst, hmapfst, hkeys]

/-- Witness for C6 at a concrete one-key map. -/
theorem c6_witness :
    ∃ m1 m2, (⟨0, ["a"], some strLess, [("a", 5)]⟩ : Map String Nat).Set "a" 7 = .ok m1 ∧
      m1.Set "a" 9 = .ok m2 ∧
      m2.keys = (⟨0, ["a"], some strLess, [("a", 5)]⟩ : Map String Nat).keys ∧
      m2.Get "a" = .ok 9 ∧
      ∃ r r', (⟨0, ["a"], some strLess, [("a", 5)]⟩ : Map String Nat).Range = .ok r ∧
        m2.Range = .ok r' ∧ r'.map Prod.fst = r.map Prod.fst :=
  c6_overwrite_semantics strLess _ "a" 7 9 5 rfl rfl rfl

/-- C7: on any map reachable by `Set`/`Delete`/`Reset` operations from
`NewMap` (hence constructed and with no cursor open), deleting a key that
`TryGet` reports as not found is a no-op: the call succeeds and leaves both
`Len()` and the full `Range()` output unchanged. -/
theorem c7_delete_absent_noop {K V : Type} [DecidableEq K] [Inhabited V]
    (f : K → K → Bool) (ops : List (MOp K V)) (m : Map K V) (k : K) (w : V)
    (hreach : applyOps ops (NewMap f) = .ok m)
    (habs : m.TryGet k = .ok (w, false)) :
    ∃ m', m.Delete k = .ok m' ∧ m'.Len = m.Len ∧ m'.Range = m.Range := by
  rcases applyOps_inv f ops (NewMap f) (NewMap_inv f) with ⟨m', hm', hinv⟩
  rw [hreach] at hm'
  cases hm'
  have heq := habs
  rw [TryGet_eq m f k hinv.hless] at heq
  injection heq with hpair
  have hfound := congrArg Prod.snd hpair
  have hnone : mapLookup m.m k = none := by
    cases hcase : mapLookup m.m k with
    | none => rfl
    | some u =>
      rw [hcase] at hfound
      simp at hfound
  have hknot : k ∉ m.keys := by
    intro hmem
    have hs := (hinv.hmem k).mp hmem
    rw [hnone] at hs
    simp at hs
  have herase : m.keys.erase k = m.keys := List.erase_of_not_mem hknot
  have hmer : mapErase m.m k = m.m := mapErase_of_lookup_none m.m k hnone
  have hld : ({ m with keys := m.keys.erase k, m := mapErase m.m k } : Map K V).less
      = some f := hinv.hless
  refine ⟨_, Delete_eq m f k hinv.hless hinv.hiter, ?_, ?_⟩
  · rw [Len_eq _ f hld, Len_eq m f hinv.hless]
    dsimp only
    rw [herase]
  · rw [Range_eq _ f hld, Range_eq m f hinv.hless]
    dsimp only
    rw [herase, hmer]

/-- Witness for C7: deleting the absent key "b" from a reachable one-key map. -/
theorem c7_witness :
    ∃ m', (⟨0, ["a"], some strLess, [("a", 1)]⟩ : Map String Nat).Delete "b" = .ok m' ∧
      m'.Len = (⟨0, ["a"], some strLess, [("a", 1)]⟩ : Map String Nat).Len ∧
      m'.Range = (⟨0, ["a"], some strLess, [("a", 1)]⟩ : Map String Nat).Range :=
  c7_delete_absent_noop strLess [MOp.set "a" 1] _ "b" 0 (by rfl) (by rfl)

theorem mapfst_pairs {K V : Type} [DecidableEq K] [Inhabited V]
    (mm : List (K × V)) (ks : List K) :
    (ks.map fun k' => (k', (mapLookup mm k').getD default)).map Prod.fst = ks := by
  induction ks with
  | nil => rfl
  | cons x xs ih => simpa using ih

/-- The constant-false comparator on booleans: a strict weak ordering in
which all keys are equivalent. Concrete input of the C1 counterexample. -/
def noneLess : Bool → Bool → Bool := fun _ _ => false

/-- C1 counterexample: `noneLess` is a strict weak ordering (irreflexive,
asymmetric, transitive, with transitive incomparability), yet after
`Set(true,0)` then `Set(false,0)` on a map constructed with it, `Range`
returns the two distinct keys `false, true`, which are not in strictly
increasing order under `noneLess` (no key compares before any other). A
strict weak ordering with a nontrivial equivalence class therefore refutes
the claim as stated. -/
theorem c1_counterexample :
    (∀ a : Bool, noneLess a a = false) ∧
    (∀ a b : Bool, noneLess a b = true → noneLess b a = false) ∧
    (∀ a b c : Bool, noneLess a b = true → noneLess b c = true →
      noneLess a c = true) ∧
    (∀ a b c : Bool, noneLess a b = false → noneLess b a = false →
      noneLess b c = false → noneLess c b = false →
      noneLess a c = false ∧ noneLess c a = false) ∧
    ((do
        let m ← applyOps [MOp.set true 0, MOp.set false 0] (NewMap noneLess)
        m.Range : Except String (List (Bool × Nat)))
      = .ok [(false, 0), (true, 0)]) ∧
    ¬ (([(false, 0), (true, 0)] : List (Bool × Nat)).map Prod.fst).Pairwise
        (fun a b => noneLess a b = true) :=
  ⟨by decide, by decide, by decide, by decide, by rfl, by decide⟩

/-- C1 as amended: for a comparator that is a strict weak ordering which is
moreover total on distinct keys (a strict total order; transitivity and
totality suffice), after any sequence of `Set`/`Delete`/`Reset` operations
from `NewMap`, `Range()` returns keys in strictly increasing order under
the comparator. -/
theorem c1_order_invariant {K V : Type} [DecidableEq K] [Inhabited V]
    (f : K → K → Bool)
    (htrans : ∀ a b c, f a b = true → f b c = true → f a c = true)
    (htot : ∀ a b, a ≠ b → f a b = true ∨ f b a = true)
    (ops : List (MOp K V)) (m : Map K V)
    (h : applyOps ops (NewMap f) = .ok m) :
    ∃ r, m.Range = .ok r ∧ (r.map Prod.fst).Pairwise fun a b => f a b = true := by
  rcases applyOps_inv_sorted f htrans htot ops (NewMap f) (NewMap_inv f)
    (NewMap_sorted f) with ⟨m', hm', hinv, hs⟩
  rw [h] at hm'
  cases hm'
  refine ⟨_, Range_eq m f hinv.hless, ?_⟩
  rw [mapfst_pairs]
  exact hs

/-- The strict total order on booleans, input of the C1 witness. -/
def boolLess (a b : Bool) : Bool := !a && b

/-- Witness for the amended C1 at a concrete two-key insertion sequence. -/
theorem c1_witness :
    (∀ a b c : Bool, boolLess a b = true → boolLess b c = true →
      boolLess a c = true) ∧
    (∀ a b : Bool, a ≠ b → boolLess a b = true ∨ boolLess b a = true) ∧
    (applyOps [MOp.set true 5, MOp.set false 7] (NewMap boolLess)
      = .ok (⟨0, [false, true], some boolLess, [(true, 5), (false, 7)]⟩ : Map Bool Nat)) ∧
    (∃ r, (⟨0, [false, true], some boolLess, [(true, 5), (false, 7)]⟩ : Map Bool Nat).Range
        = .ok r ∧ (r.map Prod.fst).Pairwise fun a b => boolLess a b = true) :=
  ⟨by decide, by decide, by rfl,
    c1_order_invariant boolLess (by decide) (by decide)
      [MOp.set true 5, MOp.set false 7] _ (by rfl)⟩

/-- C8: on any map reachable by `Set`/`Delete`/`Reset` operations from
`NewMap`, the keys of the pairs returned by `Range()` are exactly the keys
for which `TryGet` reports found=true — with no assumption at all on the
comparator. -/
theorem c8_range_tryget_correspondence {K V : Type} [DecidableEq K] [Inhabited V]
    (f : K → K → Bool) (ops : List (MOp K V)) (m : Map K V)
    (h : applyOps ops (NewMap f) = .ok m) (k : K) :
    ∃ r, m.Range = .ok r ∧
      ((k ∈ r.map Prod.fst) ↔ ∃ v, m.TryGet k = .ok (v, true)) := by
  rcases applyOps_inv f ops (NewMap f) (NewMap_inv f) with ⟨m', hm', hinv⟩
  rw [h] at hm'
  cases hm'
  refine ⟨_, Range_eq m f hinv.hless, ?_⟩
  rw [mapfst_pairs, TryGet_eq m f k hinv.hless]
  constructor
  · intro hmem
    have hsome := (hinv.hmem k).mp hmem
    rw [hsome]
    exact ⟨(mapLookup m.m k).getD default, rfl⟩
  · intro hv
    rcases hv with ⟨v, hv⟩
    injection hv with hpair
    exact (hinv.hmem k).mpr (congrArg Prod.snd hpair)

/-- Witness for C8 at a reachable one-key map and its present key. -/
theorem c8_witness :
    ∃ r, (⟨0, ["a"], some strLess, [("a", 1)]⟩ : Map String Nat).Range = .ok r ∧
      (("a" ∈ r.map Prod.fst) ↔
        ∃ v, (⟨0, ["a"], some strLess, [("a", 1)]⟩ : Map String Nat).TryGet "a"
          = .ok (v, true)) :=
  c8_range_tryget_correspondence strLess [MOp.set "a" 1] _ (by rfl) "a"

theorem iterateN_run {K V : Type} [DecidableEq K] [Inhabited V] (m : Map K V) :
    ∀ (n i : Nat), i ≤ m.keys.length → m.keys.length - i ≤ n →
    iterateN m ⟨true, i⟩ n =
      .ok ((m.keys.drop i).map fun k => (k, (mapLookup m.m k).getD default),
           (⟨true, m.keys.length⟩ : MapIterator K V))
  | 0, i, h1, h2 => by
    have hi : i = m.keys.length := by omega
    subst hi
    rw [iterateN, List.drop_length]
    rfl
  | n + 1, i, h1, h2 => by
    by_cases hlt : i < m.keys.length
    · rw [iterateN, Next_eq_yield ⟨true, i⟩ m rfl hlt]
      simp only [ok_bind]
      rw [iterateN_run m n (i + 1) (by omega) (by omega)]
      simp only [ok_bind]
      rw [List.drop_eq_getElem_cons hlt, List.map_cons]
    · have hi : i = m.keys.length := by omega
      subst hi
      rw [iterateN, Next_eq_done ⟨true, m.keys.length⟩ m rfl hlt]
      simp only [ok_bind]
      rw [List.drop_length]
      rfl

/-- C9: on a constructed map, opening two cursors yields two identical
cursor values (both at position zero, with the count incremented twice);
`Next` reads the map and mutates only its own cursor, so the two cursors
advance independently by construction, and the full traversal of either one
yields exactly the `Range()` list of pairs. -/
theorem c9_independent_cursors {K V : Type} [DecidableEq K] [Inhabited V]
    (f : K → K → Bool) (m : Map K V) (hl : m.less = some f)
    (n : Nat) (hn : m.keys.length ≤ n) :
    ∃ mA mB r,
      m.Iter = .ok (mA, (⟨true, 0⟩ : MapIterator K V)) ∧
      mA.Iter = .ok (mB, (⟨true, 0⟩ : MapIterator K V)) ∧
      m.Range = .ok r ∧
      iterateN mB ⟨true, 0⟩ n = .ok (r, ⟨true, mB.keys.length⟩) := by
  refine ⟨{ m with iter := m.iter + 1 }, { m with iter := m.iter + 1 + 1 }, _,
    Iter_eq m f hl, Iter_eq { m with iter := m.iter + 1 } f hl,
    Range_eq m f hl, ?_⟩
  have hrun := iterateN_run { m with iter := m.iter + 1 + 1 } n 0
    (Nat.zero_le _) (by simpa using hn)
  rw [List.drop_zero] at hrun
  exact hrun

/-- Witness for C9 at a concrete two-key map, traversing with fuel two. -/
theorem c9_witness :
    ∃ mA mB r,
      (⟨0, ["a", "b"], some strLess, [("a", 1), ("b", 2)]⟩ : Map String Nat).Iter
        = .ok (mA, (⟨true, 0⟩ : MapIterator String Nat)) ∧
      mA.Iter = .ok (mB, (⟨true, 0⟩ : MapIterator String Nat)) ∧
      (⟨0, ["a", "b"], some strLess, [("a", 1), ("b", 2)]⟩ : Map String Nat).Range
        = .ok r ∧
      iterateN mB ⟨true, 0⟩ 2 = .ok (r, ⟨true, mB.keys.length⟩) :=
  c9_independent_cursors strLess _ rfl 2 (by decide)

theorem allLoop_true {K V : Type} [DecidableEq K] [Inhabited V]
    (mm : List (K × V)) (ks : List K) :
    allLoop mm (fun _ _ => true) ks
      = ks.map fun k => (k, (mapLookup mm k).getD default) := by
  induction ks with
  | nil => rfl
  | cons x xs ih => simp [allLoop, ih]

/-- C10: `All` neither performs the constructed-map check nor touches the
open-iterator count — it is a pure read of `keys` and the backing map, so a
map passed to it is unchanged. Consequently `Set`, `Delete`, and `Reset`
still succeed on the same (count-zero) map while an `All` loop is in
progress, and `All` on the zero-value (unconstructed) map yields no pairs
without failing. -/
theorem c10_all_bypasses_checks {K V : Type} [DecidableEq K] [Inhabited V]
    (f : K → K → Bool) (m : Map K V) (k : K) (v : V) (y : String → Nat → Bool)
    (hl : m.less = some f) (hi : m.iter = 0) :
    m.All (fun _ _ => true)
        = (m.keys.map fun k' => (k', (mapLookup m.m k').getD default)) ∧
    (∃ m', m.Set k v = .ok m') ∧
    (∃ m', m.Delete k = .ok m') ∧
    (∃ m', m.Reset = .ok m') ∧
    Map.All (zeroMap : Map String Nat) y = [] :=
  ⟨allLoop_true m.m m.keys, ⟨_, Set_eq m f k v hl hi⟩,
    ⟨_, Delete_eq m f k hl hi⟩, ⟨_, Reset_eq m f hl hi⟩, rfl⟩

/-- Witness for C10 at a concrete one-key map. -/
theorem c10_witness :
    (⟨0, ["a"], some strLess, [("a", 1)]⟩ : Map String Nat).All (fun _ _ => true)
        = ((⟨0, ["a"], some strLess, [("a", 1)]⟩ : Map String Nat).keys.map
            fun k' => (k', (mapLookup
              (⟨0, ["a"], some strLess, [("a", 1)]⟩ : Map String Nat).m k').getD
                default)) ∧
    (∃ m', (⟨0, ["a"], some strLess, [("a", 1)]⟩ : Map String Nat).Set "b" 2
      = .ok m') ∧
    (∃ m', (⟨0, ["a"], some strLess, [("a", 1)]⟩ : Map String Nat).Delete "b"
      = .ok m') ∧
    (∃ m', (⟨0, ["a"], some strLess, [("a", 1)]⟩ : Map String Nat).Reset = .ok m') ∧
    Map.All (zeroMap : Map String Nat) (fun _ _ => false) = [] :=
  c10_all_bypasses_checks strLess _ "b" 2 (fun _ _ => false) rfl rfl

end Ordered
